import Mathlib

/-!
# Verification of the escreg registry

A shallow embedding of the `escreg` address-to-identifier registry:

* `Escreg` — the on-chain bucketed index
  (`src/projects/contract/smart_contracts/escreg/contract.algo.ts`):
  a `BoxMap` from 4-byte address prefixes to ordered lists of app IDs,
  plus a global counter, with `register` / `registerList` / `deleteBoxes`
  mutations and `get` / `exists` / `mustGet` lookups.
* `MbrManager` — the credit ledger settling minimum-balance (MBR) deltas
  (`smart_contracts/mbr-manager/contract.algo.ts`).
* The off-chain SDK's budget negotiation (`ts-sdk/src/util.ts`,
  `getIncreaseBudgetBuilder`) and batch-retry orchestration
  (`ts-sdk/src/index.ts`, `EscregSDK.register`).

Machine integers (`uint64`) are modelled as `Nat`; byte strings as
`List Nat`.  The `sha512_256` primitive is an opcode of the execution
substrate, so the model is parametrised by a hash function
`sha : List Nat → List Nat`; theorems that need collision-freeness state
it as an explicit hypothesis over the identifiers actually present.
-/

namespace Escreg

/-! ## Association-list boxes

The AVM `BoxMap` is a finite map; we embed it as an association list.
`setBox` replaces the first binding of the key (or appends a fresh one),
`delBox` removes the first binding, `lookupBox` finds the first binding.
-/

/-- Look up the value bound to `k`, as `BoxMap.exists/value`. -/
def lookupBox {K V : Type} [DecidableEq K] : List (K × V) → K → Option V
  | [], _ => none
  | (k', v) :: rest, k => if k = k' then some v else lookupBox rest k

/-- Bind `k` to `v`, replacing an existing binding, as `BoxMap(...).value = v`. -/
def setBox {K V : Type} [DecidableEq K] : List (K × V) → K → V → List (K × V)
  | [], k, v => [(k, v)]
  | (k', v') :: rest, k, v =>
      if k = k' then (k, v) :: rest else (k', v') :: setBox rest k v

/-- Remove the binding of `k`, as `BoxMap(...).delete()`. -/
def delBox {K V : Type} [DecidableEq K] : List (K × V) → K → List (K × V)
  | [], _ => []
  | (k', v') :: rest, k => if k = k' then rest else (k', v') :: delBox rest k

/-! ## Address derivation (`deriveAddr`, `deriveAddrPrefix`) -/

/-- Model of `op.itob`: the 8-byte big-endian encoding of a `uint64`. -/
def itob (n : Nat) : List Nat :=
  [n / 2 ^ 56 % 256, n / 2 ^ 48 % 256, n / 2 ^ 40 % 256, n / 2 ^ 32 % 256,
   n / 2 ^ 24 % 256, n / 2 ^ 16 % 256, n / 2 ^ 8 % 256, n % 256]

/-- The ASCII bytes of the literal `"appID"`. -/
def appIDBytes : List Nat := [97, 112, 112, 73, 68]

/-- Source `Escreg.deriveAddr`: `sha512_256("appID" ++ itob appId)`, the 32-byte
escrow address of an application. -/
def deriveAddr (sha : List Nat → List Nat) (appId : Nat) : List Nat :=
  sha (appIDBytes ++ itob appId)

/-- Source `Escreg.deriveAddrPrefix`: the first 4 bytes of the escrow address,
used as the box key. -/
def deriveAddrPrefix (sha : List Nat → List Nat) (appId : Nat) : List Nat :=
  (deriveAddr sha appId).take 4

/-! ## The registry state and its mutations -/

/-- The on-chain state of the index: the `apps` box map from 4-byte
prefixes to app-ID lists, and the `counter` global. -/
structure State where
  apps : List (List Nat × List Nat)
  counter : Nat
  deriving DecidableEq, Repr

/-- The state right after deployment: no boxes, counter 0. -/
def initState : State := { apps := [], counter := 0 }

/-- Source `Escreg.appendAppId`: append `appId` to the bucket at `key`, skipping
if already present; increments the counter on insert. -/
def appendAppId (s : State) (key : List Nat) (appId : Nat) : State :=
  let existing := (lookupBox s.apps key).getD []
  if appId ∈ existing then s
  else { apps := setBox s.apps key (existing ++ [appId]),
         counter := s.counter + 1 }

/-- Source `Escreg.register` (index part): create the bucket `[appId]` if the
box key is absent, else `appendAppId`.  The MBR-credit settlement at the
end of the method does not touch the index and is modelled separately by
`MbrManager.manageMbrCredits`. -/
def register (sha : List Nat → List Nat) (s : State) (appId : Nat) : State :=
  let key := deriveAddrPrefix sha appId
  if lookupBox s.apps key = none then
    { apps := setBox s.apps key [appId], counter := s.counter + 1 }
  else appendAppId s key appId

/-- Source `Escreg.registerList` (index part): the same per-id body as
`register`, folded over the list. -/
def registerList (sha : List Nat → List Nat) (s : State) (appIds : List Nat) : State :=
  appIds.foldl (register sha) s

/-- Source `Escreg.deleteBoxes`: for each key that has a box, subtract the
bucket length from the counter and delete the box. -/
def deleteBoxes (s : State) (boxKeys : List (List Nat)) : State :=
  boxKeys.foldl
    (fun s key =>
      match lookupBox s.apps key with
      | some apps => { apps := delBox s.apps key, counter := s.counter - apps.length }
      | none => s)
    s

/-! ## Lookups -/

/-- The error codes of `errors.algo.ts`. -/
inductive Err where
  | errAuth
  | errAppNotRegistered
  | errCredit
  | errReceiver
  | errAmt
  deriving DecidableEq, Repr

/-- Source `Escreg.findAddr`: linear scan over the candidate app IDs, returning
the first one whose recomputed full escrow address equals `address`, or 0
when none matches. -/
def findAddr (sha : List Nat → List Nat) (address : List Nat) : List Nat → Nat
  | [] => 0
  | a :: rest => if address = deriveAddr sha a then a else findAddr sha address rest

/-- Source `Escreg.get`: 0 when the 4-byte prefix has no box, else `findAddr`
over the bucket (which is itself 0 when no candidate matches). -/
def get (sha : List Nat → List Nat) (s : State) (address : List Nat) : Nat :=
  match lookupBox s.apps (address.take 4) with
  | none => 0
  | some apps => findAddr sha address apps

/-- Source `Escreg.exists`: whether a registered app ID matches the address. -/
def existsAddr (sha : List Nat → List Nat) (s : State) (address : List Nat) : Bool :=
  match lookupBox s.apps (address.take 4) with
  | none => false
  | some apps => findAddr sha address apps ≠ 0

/-- Source `Escreg.mustGet`: like `get` but failing with `ERR:404`
(`errAppNotRegistered`) when the box is absent or no candidate matches. -/
def mustGet (sha : List Nat → List Nat) (s : State) (address : List Nat) :
    Except Err Nat :=
  match lookupBox s.apps (address.take 4) with
  | none => .error .errAppNotRegistered
  | some apps =>
      let matchingAppID := findAddr sha address apps
      if matchingAppID ≠ 0 then .ok matchingAppID
      else .error .errAppNotRegistered

/-- All app IDs registered anywhere in the index. -/
def allIds (s : State) : List Nat :=
  (s.apps.map Prod.snd).flatten

/-- The bucket stored under `key` (empty when the box is absent). -/
def bucketAt (s : State) (key : List Nat) : List Nat :=
  (lookupBox s.apps key).getD []

/-- Sum of the bucket lengths of a raw box map. -/
def boxLenSum (m : List (List Nat × List Nat)) : Nat :=
  (m.map (fun kv => kv.2.length)).sum

/-- Sum of the lengths of all buckets in the index. -/
def bucketLenSum (s : State) : Nat :=
  boxLenSum s.apps

/-- A stand-in for the opaque `sha512_256` substrate primitive, used to
instantiate theorems on concrete inputs: the identity on byte lists. -/
def hashId : List Nat → List Nat := fun l => l

/-- All index states reachable from deployment through the three index
mutations `register`, `registerList` and `deleteBoxes`. -/
inductive Reachable (sha : List Nat → List Nat) : State → Prop
  | init : Reachable sha initState
  | register (s : State) (appId : Nat) :
      Reachable sha s → Reachable sha (register sha s appId)
  | registerList (s : State) (appIds : List Nat) :
      Reachable sha s → Reachable sha (registerList sha s appIds)
  | deleteBoxes (s : State) (boxKeys : List (List Nat)) :
      Reachable sha s → Reachable sha (deleteBoxes s boxKeys)

end Escreg

namespace MbrManager

/-- Source `MbrManager.manageMbrCredits`: settle the MBR delta of a mutating
call against the sender's prepaid credit box.  `mbrAfter` is the
substrate's `Global.currentApplicationAddress.minBalance` read inside the
hook; unchanged MBR is a no-op, an increase debits the sender (failing
with `ERR:CRD` on insufficient credit), a decrease credits the sender
(failing with `ERR:RCV` when the sender has no credit box to receive the
refund). -/
def manageMbrCredits (sender : Nat) (credits : List (Nat × Nat))
    (mbrBefore mbrAfter : Nat) : Except Escreg.Err (List (Nat × Nat)) :=
  if mbrAfter = mbrBefore then .ok credits
  else if mbrAfter > mbrBefore then
    let creditNeeded := mbrAfter - mbrBefore
    let userCredit := (Escreg.lookupBox credits sender).getD 0
    if userCredit ≥ creditNeeded then
      .ok (Escreg.setBox credits sender (userCredit - creditNeeded))
    else .error .errCredit
  else
    let creditToReturn := mbrBefore - mbrAfter
    match Escreg.lookupBox credits sender with
    | some v => .ok (Escreg.setBox credits sender (v + creditToReturn))
    | none => .error .errReceiver

/-- Source `MbrManager.depositCredits`: validate the inbound payment (receiver
must be the contract, amount nonzero), add the amount to the creditor's
box, then settle the MBR growth of the box write via `manageMbrCredits`.
`txnReceiver`/`contractAddr` and the two MBR readings are the substrate
observations the method makes. -/
def depositCredits (sender creditor : Nat) (txnReceiver contractAddr : Nat)
    (amount : Nat) (credits : List (Nat × Nat)) (mbrBefore mbrAfter : Nat) :
    Except Escreg.Err (List (Nat × Nat)) :=
  if txnReceiver ≠ contractAddr then .error .errReceiver
  else if amount = 0 then .error .errAmt
  else
    let current := (Escreg.lookupBox credits creditor).getD 0
    let credits1 := Escreg.setBox credits creditor (current + amount)
    manageMbrCredits sender credits1 mbrBefore mbrAfter

end MbrManager

namespace Sdk

/-- One entry of the simulate response's `txnResults`: whether the
transaction is an application call, and how many inner transactions it
issued (`getIncreaseBudgetBuilder` only looks one level deep). -/
structure TxnResult where
  isAppl : Bool
  innerTxns : Nat
  deriving DecidableEq, Repr

/-- Base opcode cost of an `increaseBudget` call (synced with the
contract tests), `util.ts`. -/
def increaseBudgetBaseCost : Nat := 26

/-- Per-inner-transaction opcode cost of `increaseBudget`, `util.ts`. -/
def increaseBudgetIncrementCost : Nat := 22

/-- The call-equivalent count of the simulated group: each application
call counts itself plus its inner transactions, one level deep. -/
def numAppCalls (txnResults : List TxnResult) : Nat :=
  txnResults.foldl
    (fun sum r => if r.isAppl then sum + 1 + r.innerTxns else sum) 0

/-- The arguments `getIncreaseBudgetBuilder` passes to the prepended
`increaseBudget` call: inner-transaction count and fees (microAlgo). -/
structure IncreaseBudgetCall where
  itxns : Nat
  extraFee : Nat
  maxFee : Nat
  deriving DecidableEq, Repr

/-- Source `getIncreaseBudgetBuilder` (`ts-sdk/src/util.ts`), as the pure
function of the simulate measurement it implements: `none` when the
consumed budget fits `700 * numAppCalls`, else the prepended
`increaseBudget` call.  The JS `Math.max(0, Math.ceil(x / d))` over a
possibly negative integer `x` is 0 when `x ≤ 0` and the rounded-up
quotient otherwise, which the nested `if` spells out in `Nat`. -/
def getIncreaseBudgetBuilder (txnResults : List TxnResult)
    (appBudgetConsumed : Nat) : Option IncreaseBudgetCall :=
  let existingBudget := 700 * numAppCalls txnResults
  if appBudgetConsumed ≤ existingBudget then none
  else
    let available := existingBudget + (700 - increaseBudgetBaseCost)
    let itxns :=
      if appBudgetConsumed ≤ available then 0
      else (appBudgetConsumed - available + (700 - increaseBudgetIncrementCost) - 1)
        / (700 - increaseBudgetIncrementCost)
    some { itxns := itxns, extraFee := itxns * 1000, maxFee := (itxns + 1) * 1000 }

/-- Source `chunk` (`ts-sdk/src/util.ts`): split a list into consecutive runs
of at most `size` elements.  (The JS throws for `size ≤ 0`; it is only
ever called with positive constants.) -/
def chunk {α : Type} (l : List α) (size : Nat) : List (List α) :=
  if l.isEmpty then []
  else if size = 0 then []
  else l.take size :: chunk (l.drop size) size
termination_by l.length
decreasing_by
  simp only [List.isEmpty_eq_true] at *
  have : l.length ≠ 0 := by
    intro h
    exact ‹¬l = []› (List.eq_nil_of_length_eq_zero h)
  simp only [List.length_drop]
  omega

/-- The identifiers of the groups that failed in one orchestrator pass:
the group chunks (`7 * 15` ids each, as in `EscregSDK.register`) for
which the submit/confirm collaborator reports failure, flattened.
`groupFails passIdx group` is the oracle abstracting that collaborator. -/
def failedIds (groupFails : Nat → List Nat → Bool) (passIdx : Nat)
    (appIds : List Nat) : List Nat :=
  ((chunk appIds (7 * 15)).filter (fun g => groupFails passIdx g)).flatten

/-- The retry skeleton of `EscregSDK.register` (`ts-sdk/src/index.ts`):
each pass attempts `appIds`, collects the ids of failed groups, throws
the persistent-failure error when the failure count equals the previous
pass's, otherwise recurses on exactly the failed ids.  Returns the trace
of `(passIdx, attempted ids)` pairs and whether the run aborted with the
persistent-failure error. -/
def registerRun (groupFails : Nat → List Nat → Bool) (passIdx prevPassFails : Nat)
    (appIds : List Nat) : List (Nat × List Nat) × Bool :=
  if appIds = [] then ([], false)
  else if (failedIds groupFails passIdx appIds).length ≠ 0 ∧
      (failedIds groupFails passIdx appIds).length = prevPassFails then
    ([(passIdx, appIds)], true)
  else if (failedIds groupFails passIdx appIds).length ≠ 0 then
    let rest := registerRun groupFails (passIdx + 1)
      (failedIds groupFails passIdx appIds).length (failedIds groupFails passIdx appIds)
    ((passIdx, appIds) :: rest.1, rest.2)
  else ([(passIdx, appIds)], false)
termination_by appIds.length + (if prevPassFails = appIds.length then 0 else 1)
decreasing_by
  have hflat : ∀ (p : List Nat → Bool) (L : List (List Nat)),
      (L.filter p).flatten.length ≤ L.flatten.length := by
    intro p L
    induction L with
    | nil => simp
    | cons a L ih =>
        rw [List.filter_cons]
        cases h : p a
        · simp only [Bool.false_eq_true, if_false, List.flatten_cons, List.length_append]
          omega
        · simp only [if_true, List.flatten_cons, List.length_append]
          omega
  have hchunk : ∀ (N : Nat) (l : List Nat), l.length ≤ N →
      (chunk l (7 * 15)).flatten = l := by
    intro N
    induction N with
    | zero =>
        intro l hl
        have h0 : l = [] := List.length_eq_zero.mp (Nat.le_zero.mp hl)
        subst h0
        rw [chunk]
        simp
    | succ N ih =>
        intro l hl
        rw [chunk]
        by_cases h0 : l = []
        · subst h0; simp
        · have hlen : l.length ≠ 0 := fun h => h0 (List.length_eq_zero.mp h)
          have hne' : l.isEmpty = false := by
            cases l with
            | nil => exact absurd rfl h0
            | cons a t => rfl
          simp only [hne', Bool.false_eq_true, if_false]
          rw [if_neg (by omega)]
          rw [List.flatten_cons, ih (l.drop (7 * 15)) (by simp [List.length_drop]; omega)]
          exact List.take_append_drop _ l
  have hle : (failedIds groupFails passIdx appIds).length ≤ appIds.length := by
    have h1 := hflat (fun g => groupFails passIdx g) (chunk appIds (7 * 15))
    have h2 := hchunk appIds.length appIds (Nat.le_refl _)
    unfold failedIds
    rw [h2] at h1
    exact h1
  simp only [eq_self_iff_true, if_true]
  split <;> omega

end Sdk

/-! ## Lemmas about association-list boxes -/

open Escreg

theorem lookupBox_setBox_self {K V : Type} [DecidableEq K]
    (m : List (K × V)) (k : K) (v : V) :
    lookupBox (setBox m k v) k = some v := by
  induction m with
  | nil => simp [setBox, lookupBox]
  | cons kv m ih =>
      obtain ⟨k', v'⟩ := kv
      by_cases h : k = k'
      · subst h
        simp [setBox, lookupBox]
      · simp [setBox, lookupBox, h, ih]

theorem lookupBox_setBox_ne {K V : Type} [DecidableEq K]
    (m : List (K × V)) (k k' : K) (v : V) (h : k' ≠ k) :
    lookupBox (setBox m k v) k' = lookupBox m k' := by
  induction m with
  | nil => simp [setBox, lookupBox, h]
  | cons kv m ih =>
      obtain ⟨k'', v''⟩ := kv
      by_cases h2 : k = k''
      · subst h2
        simp [setBox, lookupBox, h]
      · simp only [setBox, if_neg h2, lookupBox]
        by_cases h3 : k' = k''
        · simp [h3]
        · simp [h3, ih]

theorem lookupBox_mem {K V : Type} [DecidableEq K]
    {m : List (K × V)} {k : K} {v : V} (h : lookupBox m k = some v) :
    (k, v) ∈ m := by
  induction m with
  | nil => simp [lookupBox] at h
  | cons kv m ih =>
      obtain ⟨k', v'⟩ := kv
      by_cases h2 : k = k'
      · subst h2
        simp [lookupBox] at h
        simp [h]
      · simp [lookupBox, h2] at h
        exact List.mem_cons_of_mem _ (ih h)

theorem mem_allIds_of_lookupBox {s : State} {k : List Nat} {b : List Nat} {j : Nat}
    (hb : lookupBox s.apps k = some b) (hj : j ∈ b) : j ∈ allIds s := by
  unfold allIds
  exact List.mem_flatten.mpr ⟨b, List.mem_map_of_mem Prod.snd (lookupBox_mem hb), hj⟩

/-! ## Lemmas about `findAddr` -/

theorem findAddr_eq_of_mem (sha : List Nat → List Nat) {i : Nat} {b : List Nat}
    (hmem : i ∈ b)
    (huniq : ∀ j ∈ b, deriveAddr sha j = deriveAddr sha i → j = i) :
    findAddr sha (deriveAddr sha i) b = i := by
  induction b with
  | nil => cases hmem
  | cons a rest ih =>
      rw [findAddr]
      by_cases h : deriveAddr sha i = deriveAddr sha a
      · rw [if_pos h]
        exact huniq a (List.mem_cons_self a rest) h.symm
      · rw [if_neg h]
        rcases List.mem_cons.mp hmem with rfl | hmem'
        · exact absurd rfl h
        · exact ih hmem' (fun j hj => huniq j (List.mem_cons_of_mem a hj))

theorem findAddr_append_no_match (sha : List Nat → List Nat)
    {address : List Nat} {b1 b2 : List Nat}
    (h : ∀ j ∈ b1, address ≠ deriveAddr sha j) :
    findAddr sha address (b1 ++ b2) = findAddr sha address b2 := by
  induction b1 with
  | nil => rfl
  | cons a rest ih =>
      rw [List.cons_append, findAddr,
        if_neg (h a (List.mem_cons_self a rest))]
      exact ih (fun j hj => h j (List.mem_cons_of_mem a hj))

/-! ## Registration lemmas -/

theorem register_of_lookup_none (sha : List Nat → List Nat) (s : State) (i : Nat)
    (hk : lookupBox s.apps ( deriveAddrPrefix sha i) = none) :
    register sha s i =
      { apps := setBox s.apps ( deriveAddrPrefix sha i) [i], counter := s.counter + 1 } := by
  unfold register
  rw [if_pos hk]

theorem register_of_mem (sha : List Nat → List Nat) (s : State) (i : Nat) {b : List Nat}
    (hk : lookupBox s.apps ( deriveAddrPrefix sha i) = some b) (hm : i ∈ b) :
    register sha s i = s := by
  simp only [register, appendAppId]
  rw [hk]
  simp [hm]

theorem register_of_not_mem (sha : List Nat → List Nat) (s : State) (i : Nat) {b : List Nat}
    (hk : lookupBox s.apps ( deriveAddrPrefix sha i) = some b) (hm : i ∉ b) :
    register sha s i =
      { apps := setBox s.apps ( deriveAddrPrefix sha i) (b ++ [i]),
        counter := s.counter + 1 } := by
  simp only [register, appendAppId]
  rw [hk]
  simp [hm]

/-- C3 (claim theorem). **Idempotence**: re-registering an already
registered app ID leaves the bucket table and the counter unchanged — the
second `register` call is a silent no-op on the index (the model is total,
so no error is raised), for every state and identifier. -/
theorem register_idempotent (sha : List Nat → List Nat) (s : State) (i : Nat) :
    register sha (register sha s i) i = register sha s i := by
  cases hk : lookupBox s.apps ( deriveAddrPrefix sha i) with
  | none =>
      rw [register_of_lookup_none sha s i hk]
      exact register_of_mem sha _ i (lookupBox_setBox_self _ _ _) (List.mem_singleton.mpr rfl)
  | some b =>
      by_cases hm : i ∈ b
      · rw [register_of_mem sha s i hk hm]
        exact register_of_mem sha s i hk hm
      · rw [register_of_not_mem sha s i hk hm]
        exact register_of_mem sha _ i (lookupBox_setBox_self _ _ _)
          (List.mem_append_right b (List.mem_singleton.mpr rfl))

/-- C5 (claim theorem). **Negative lookup**: on any address whose 4-byte
prefix has no box, `get` returns 0, `exists` returns false, and `mustGet`
fails with `ERR:404`. -/
theorem negative_lookup (sha : List Nat → List Nat) (s : State) (address : List Nat)
    (h : lookupBox s.apps (address.take 4) = none) :
    get sha s address = 0 ∧ existsAddr sha s address = false ∧
      mustGet sha s address = .error .errAppNotRegistered := by
  unfold Escreg.get Escreg.existsAddr Escreg.mustGet
  rw [h]
  exact ⟨rfl, rfl, rfl⟩

/-- Witness for C5 at a concrete unregistered address in the initial state. -/
theorem negative_lookup_witness :
    lookupBox initState.apps (([9, 9, 9, 9, 9] : List Nat).take 4) = none ∧
      (get hashId initState [9, 9, 9, 9, 9] = 0 ∧
        existsAddr hashId initState [9, 9, 9, 9, 9] = false ∧
        mustGet hashId initState [9, 9, 9, 9, 9] = .error .errAppNotRegistered) :=
  ⟨by decide, negative_lookup hashId initState [9, 9, 9, 9, 9] (by decide)⟩

/-- C1 (claim theorem). **Round-trip**: after `register i`, looking up the
derived address of `i` returns `i`, in any state in which no other
registered identifier shares the full 32-byte derived address of `i`
(`sha512_256` is treated as collision-free on registered identifiers;
a full-hash collision is the only way the code could answer otherwise). -/
theorem register_get_roundtrip (sha : List Nat → List Nat) (s : State) (i : Nat)
    (huniq : ∀ j ∈ allIds s, deriveAddr sha j = deriveAddr sha i → j = i) :
    get sha (register sha s i) (deriveAddr sha i) = i := by
  have hkey : (deriveAddr sha i).take 4 = deriveAddrPrefix sha i := rfl
  cases hk : lookupBox s.apps ( deriveAddrPrefix sha i) with
  | none =>
      rw [register_of_lookup_none sha s i hk]
      unfold Escreg.get
      rw [hkey]
      rw [lookupBox_setBox_self]
      exact findAddr_eq_of_mem sha (List.mem_singleton.mpr rfl)
        (fun j hj _ => List.mem_singleton.mp hj)
  | some b =>
      by_cases hm : i ∈ b
      · rw [register_of_mem sha s i hk hm]
        unfold Escreg.get
        rw [hkey, hk]
        exact findAddr_eq_of_mem sha hm
          (fun j hj hh => huniq j (mem_allIds_of_lookupBox hk hj) hh)
      · rw [register_of_not_mem sha s i hk hm]
        unfold Escreg.get
        rw [hkey]
        rw [lookupBox_setBox_self]
        refine findAddr_eq_of_mem sha (List.mem_append_right b (List.mem_singleton.mpr rfl)) ?_
        intro j hj hh
        rcases List.mem_append.mp hj with hj' | hj'
        · exact huniq j (mem_allIds_of_lookupBox hk hj') hh
        · exact List.mem_singleton.mp hj'

/-- Witness for C1: registering app ID 5 in the empty registry and
looking up its derived address returns 5 (identity hash). -/
theorem register_get_roundtrip_witness :
    (∀ j ∈ allIds initState, deriveAddr hashId j = deriveAddr hashId 5 → j = 5) ∧
      get hashId (register hashId initState 5) (deriveAddr hashId 5) = 5 :=
  ⟨by decide, register_get_roundtrip hashId initState 5 (by decide)⟩

/-- C2 (claim theorem). **Collision correctness**: two distinct app IDs
whose derived addresses share the 4-byte bucket key but differ as full
32-byte addresses can both be registered, and looking up either derived
address returns its own app ID, never the other's — the bucket scan
compares the full recomputed address of every candidate. -/
theorem collision_correctness (sha : List Nat → List Nat) (i j : Nat)
    (hne : i ≠ j)
    (hpre : deriveAddrPrefix sha i = deriveAddrPrefix sha j)
    (haddr : deriveAddr sha i ≠ deriveAddr sha j) :
    get sha (register sha (register sha initState i) j) (deriveAddr sha i) = i ∧
      get sha (register sha (register sha initState i) j) (deriveAddr sha j) = j := by
  have h1 : register sha initState i =
      { apps := [( deriveAddrPrefix sha i, [i])], counter := 1 } := by
    rw [register_of_lookup_none sha initState i rfl]
    rfl
  have hkj : lookupBox [( deriveAddrPrefix sha i, [i])] ( deriveAddrPrefix sha j) =
      some [i] := by
    rw [← hpre]
    simp [lookupBox]
  have hjm : j ∉ ([i] : List Nat) := by
    simp only [List.mem_singleton]
    exact fun h => hne h.symm
  have h2 : register sha (register sha initState i) j =
      { apps := [( deriveAddrPrefix sha j, [i, j])], counter := 2 } := by
    rw [h1, register_of_not_mem sha _ j hkj hjm, ← hpre]
    simp [setBox]
  rw [h2]
  have hlooki : lookupBox [( deriveAddrPrefix sha j, [i, j])]
      ((deriveAddr sha i).take 4) = some [i, j] := by
    rw [show (deriveAddr sha i).take 4 = deriveAddrPrefix sha j from hpre]
    simp [lookupBox]
  have hlookj : lookupBox [( deriveAddrPrefix sha j, [i, j])]
      ((deriveAddr sha j).take 4) = some [i, j] := by
    simp [lookupBox, deriveAddrPrefix]
  constructor
  · unfold Escreg.get
    rw [hlooki]
    simp [findAddr]
  · unfold Escreg.get
    rw [hlookj]
    simp only [findAddr]
    rw [if_neg (fun h => haddr h.symm)]
    simp

/-- Witness for C2: with the identity hash, app IDs 1 and 2 share the
4-byte prefix `"appI"` but have distinct full addresses. -/
theorem collision_correctness_witness :
    ((1 : Nat) ≠ 2 ∧ deriveAddrPrefix hashId 1 = deriveAddrPrefix hashId 2 ∧
        deriveAddr hashId 1 ≠ deriveAddr hashId 2) ∧
      (get hashId (register hashId (register hashId initState 1) 2)
          (deriveAddr hashId 1) = 1 ∧
        get hashId (register hashId (register hashId initState 1) 2)
          (deriveAddr hashId 2) = 2) :=
  ⟨⟨by decide, by decide, by decide⟩,
    collision_correctness hashId 1 2 (by decide) (by decide) (by decide)⟩

/-- C10 (claim theorem). App ID 0 is registered in the index (its bucket
contains 0 and the counter increments) yet is invisible to reads:
`exists` on its derived address returns false and `mustGet` fails with
`ERR:404`, because `findAddr` returns 0 both as a match of app ID 0 and
as its not-found sentinel.  The hypothesis says no already-registered id
has the same full derived address as id 0. -/
theorem register_zero_invisible (sha : List Nat → List Nat) (s : State)
    (h0 : ∀ j ∈ allIds s, deriveAddr sha j ≠ deriveAddr sha 0) :
    0 ∈ bucketAt (register sha s 0) ( deriveAddrPrefix sha 0) ∧
      (register sha s 0).counter = s.counter + 1 ∧
      existsAddr sha (register sha s 0) (deriveAddr sha 0) = false ∧
      mustGet sha (register sha s 0) (deriveAddr sha 0) = .error .errAppNotRegistered := by
  have hkey : (deriveAddr sha 0).take 4 = deriveAddrPrefix sha 0 := rfl
  cases hk : lookupBox s.apps ( deriveAddrPrefix sha 0) with
  | none =>
      rw [register_of_lookup_none sha s 0 hk]
      refine ⟨?_, rfl, ?_, ?_⟩
      · unfold bucketAt
        rw [lookupBox_setBox_self]
        simp
      · unfold Escreg.existsAddr
        rw [hkey, lookupBox_setBox_self]
        simp [findAddr]
      · unfold Escreg.mustGet
        rw [hkey, lookupBox_setBox_self]
        simp [findAddr]
  | some b =>
      have hm : 0 ∉ b := fun hmem => h0 0 (mem_allIds_of_lookupBox hk hmem) rfl
      have hnomatch : ∀ j ∈ b, deriveAddr sha 0 ≠ deriveAddr sha j :=
        fun j hj h => h0 j (mem_allIds_of_lookupBox hk hj) h.symm
      have hfind : findAddr sha (deriveAddr sha 0) (b ++ [0]) = 0 := by
        rw [findAddr_append_no_match sha hnomatch]
        simp [findAddr]
      rw [register_of_not_mem sha s 0 hk hm]
      refine ⟨?_, rfl, ?_, ?_⟩
      · unfold bucketAt
        rw [lookupBox_setBox_self]
        simp
      · unfold Escreg.existsAddr
        rw [hkey, lookupBox_setBox_self]
        simp [hfind]
      · unfold Escreg.mustGet
        rw [hkey, lookupBox_setBox_self]
        simp [hfind]

/-- Witness for C10: registering id 0 in the empty registry (identity
hash) makes it present in the bucket but invisible to `exists`/`mustGet`. -/
theorem register_zero_invisible_witness :
    (∀ j ∈ allIds initState, deriveAddr hashId j ≠ deriveAddr hashId 0) ∧
      (0 ∈ bucketAt (register hashId initState 0) ( deriveAddrPrefix hashId 0) ∧
        (register hashId initState 0).counter = initState.counter + 1 ∧
        existsAddr hashId (register hashId initState 0) (deriveAddr hashId 0) = false ∧
        mustGet hashId (register hashId initState 0) (deriveAddr hashId 0) =
          .error .errAppNotRegistered) :=
  ⟨by decide, register_zero_invisible hashId initState (by decide)⟩

/-! ## Counter invariant lemmas -/

theorem boxLenSum_setBox_none (m : List (List Nat × List Nat)) (k : List Nat)
    (v : List Nat) (h : lookupBox m k = none) :
    boxLenSum (setBox m k v) = boxLenSum m + v.length := by
  induction m with
  | nil => simp [setBox, boxLenSum]
  | cons kv m ih =>
      obtain ⟨k', v'⟩ := kv
      by_cases h2 : k = k'
      · simp [lookupBox, h2] at h
      · simp only [lookupBox, if_neg h2] at h
        simp only [setBox, if_neg h2, boxLenSum, List.map_cons, List.sum_cons] at *
        rw [ih h]
        omega

theorem boxLenSum_setBox_some (m : List (List Nat × List Nat)) (k : List Nat)
    (v b : List Nat) (h : lookupBox m k = some b) :
    boxLenSum (setBox m k v) + b.length = boxLenSum m + v.length := by
  induction m with
  | nil => simp [lookupBox] at h
  | cons kv m ih =>
      obtain ⟨k', v'⟩ := kv
      by_cases h2 : k = k'
      · simp only [lookupBox, if_pos h2, Option.some.injEq] at h
        subst h
        simp only [setBox, if_pos h2, boxLenSum, List.map_cons, List.sum_cons]
        omega
      · simp only [lookupBox, if_neg h2] at h
        simp only [setBox, if_neg h2, boxLenSum, List.map_cons, List.sum_cons] at *
        have := ih h
        omega

theorem boxLenSum_delBox (m : List (List Nat × List Nat)) (k : List Nat)
    (b : List Nat) (h : lookupBox m k = some b) :
    boxLenSum (delBox m k) + b.length = boxLenSum m := by
  induction m with
  | nil => simp [lookupBox] at h
  | cons kv m ih =>
      obtain ⟨k', v'⟩ := kv
      by_cases h2 : k = k'
      · simp only [lookupBox, if_pos h2, Option.some.injEq] at h
        subst h
        simp only [delBox, if_pos h2, boxLenSum, List.map_cons, List.sum_cons]
        omega
      · simp only [lookupBox, if_neg h2] at h
        simp only [delBox, if_neg h2, boxLenSum, List.map_cons, List.sum_cons] at *
        have := ih h
        omega

theorem register_counter_inv (sha : List Nat → List Nat) (s : State) (i : Nat)
    (h : s.counter = bucketLenSum s) :
    (register sha s i).counter = bucketLenSum (register sha s i) := by
  cases hk : lookupBox s.apps ( deriveAddrPrefix sha i) with
  | none =>
      rw [register_of_lookup_none sha s i hk]
      unfold bucketLenSum at *
      simp only
      rw [boxLenSum_setBox_none _ _ _ hk]
      simp [h]
  | some b =>
      by_cases hm : i ∈ b
      · rw [register_of_mem sha s i hk hm]
        exact h
      · rw [register_of_not_mem sha s i hk hm]
        unfold bucketLenSum at *
        simp only
        have h2 := boxLenSum_setBox_some s.apps _ (b ++ [i]) b hk
        simp only [List.length_append, List.length_singleton] at h2
        omega

theorem registerList_counter_inv (sha : List Nat → List Nat) (appIds : List Nat) :
    ∀ s : State, s.counter = bucketLenSum s →
      (registerList sha s appIds).counter = bucketLenSum (registerList sha s appIds) := by
  induction appIds with
  | nil => exact fun s h => h
  | cons a rest ih =>
      intro s h
      exact ih (register sha s a) (register_counter_inv sha s a h)

theorem deleteBoxes_counter_inv (boxKeys : List (List Nat)) :
    ∀ s : State, s.counter = bucketLenSum s →
      (deleteBoxes s boxKeys).counter = bucketLenSum (deleteBoxes s boxKeys) := by
  induction boxKeys with
  | nil => exact fun s h => h
  | cons k rest ih =>
      intro s h
      have hstep : ∀ s' : State, s'.counter = bucketLenSum s' →
          deleteBoxes s' (k :: rest) = deleteBoxes
            (match lookupBox s'.apps k with
              | some apps => { apps := delBox s'.apps k, counter := s'.counter - apps.length }
              | none => s') rest := by
        intro s' _
        rfl
      rw [hstep s h]
      cases hk : lookupBox s.apps k with
      | none => exact ih s h
      | some b =>
          apply ih
          have h2 := boxLenSum_delBox s.apps k b hk
          unfold bucketLenSum at *
          simp only
          omega

/-- C4 (claim theorem). **Counter invariant**: in every state reachable
from deployment through any sequence of `register`, `registerList` and
`deleteBoxes` calls, the global counter equals the sum of the lengths of
all buckets. -/
theorem counter_invariant (sha : List Nat → List Nat) (s : State)
    (h : Reachable sha s) : s.counter = bucketLenSum s := by
  induction h with
  | init => rfl
  | register s i _ ih => exact register_counter_inv sha s i ih
  | registerList s ids _ ih => exact registerList_counter_inv sha ids s ih
  | deleteBoxes s keys _ ih => exact deleteBoxes_counter_inv keys s ih

/-- Witness for C4: a concrete reachable state built by a batch
registration followed by a bucket deletion satisfies the invariant. -/
theorem counter_invariant_witness :
    (deleteBoxes (registerList hashId initState [1, 2, 3])
        [ deriveAddrPrefix hashId 1]).counter =
      bucketLenSum (deleteBoxes (registerList hashId initState [1, 2, 3])
        [ deriveAddrPrefix hashId 1]) :=
  counter_invariant hashId _
    (Reachable.deleteBoxes _ _ (Reachable.registerList _ _ Reachable.init))

/-! ## Credit-ledger theorems -/

/-- C6 (claim theorem). The MBR settlement hook: unchanged cost is a
no-op; increased cost fails with `ERR:CRD` (InsufficientCredit) unless
the sender's balance covers `costAfter - costBefore` and otherwise debits
exactly that amount; decreased cost credits the sender exactly
`costBefore - costAfter`, failing with `ERR:RCV` when the sender has no
credit box to receive the refund (the code's `ERR:RCV` is, per its own
doc comment, "the receiver of the credit does not have a userCredit box" —
the spec's NoAccount condition). -/
theorem manageMbrCredits_spec (sender : Nat) (credits : List (Nat × Nat))
    (mbrBefore mbrAfter : Nat) :
    (mbrAfter = mbrBefore →
      MbrManager.manageMbrCredits sender credits mbrBefore mbrAfter = .ok credits) ∧
    (mbrBefore < mbrAfter →
      (mbrAfter - mbrBefore ≤ (lookupBox credits sender).getD 0 →
        MbrManager.manageMbrCredits sender credits mbrBefore mbrAfter =
          .ok (setBox credits sender
            ((lookupBox credits sender).getD 0 - (mbrAfter - mbrBefore)))) ∧
      ((lookupBox credits sender).getD 0 < mbrAfter - mbrBefore →
        MbrManager.manageMbrCredits sender credits mbrBefore mbrAfter =
          .error .errCredit)) ∧
    (mbrAfter < mbrBefore →
      (lookupBox credits sender = none →
        MbrManager.manageMbrCredits sender credits mbrBefore mbrAfter =
          .error .errReceiver) ∧
      (∀ v, lookupBox credits sender = some v →
        MbrManager.manageMbrCredits sender credits mbrBefore mbrAfter =
          .ok (setBox credits sender (v + (mbrBefore - mbrAfter))))) := by
  refine ⟨fun h => ?_, fun hlt => ⟨fun hle => ?_, fun hgt => ?_⟩,
    fun hdec => ⟨fun hnone => ?_, fun v hv => ?_⟩⟩
  · simp [MbrManager.manageMbrCredits, h]
  · simp only [MbrManager.manageMbrCredits]
    rw [if_neg (by omega), if_pos hlt, if_pos hle]
  · simp only [MbrManager.manageMbrCredits]
    rw [if_neg (by omega), if_pos hlt, if_neg (by omega)]
  · simp only [MbrManager.manageMbrCredits]
    rw [if_neg (by omega), if_neg (by omega), hnone]
  · simp only [MbrManager.manageMbrCredits]
    rw [if_neg (by omega), if_neg (by omega), hv]

/-- Witness for C6: a refund with no credit box fails with `ERR:RCV`; a
debit of 2 against a balance of 10 leaves 8. -/
theorem manageMbrCredits_spec_witness :
    MbrManager.manageMbrCredits 7 [] 5 3 = .error .errReceiver ∧
      MbrManager.manageMbrCredits 7 [(7, 10)] 3 5 = .ok [(7, 8)] :=
  ⟨((manageMbrCredits_spec 7 [] 5 3).2.2 (by decide)).1 (by decide),
    ((manageMbrCredits_spec 7 [(7, 10)] 3 5).2.1 (by decide)).1 (by decide)⟩

/-- Counterexample to C7 as stated: a third-party deposit (`Txn.sender` 1,
creditor 2) of 100 that creates creditor 2's box with an MBR growth of 10
does not debit the named owner's fresh balance (which would give
`.ok [(2, 90)]`); the code debits `Txn.sender` 1, who has no credit box,
so the call fails with `ERR:CRD`. -/
theorem depositCredits_counterexample :
    MbrManager.depositCredits 1 2 7 7 100 [] 0 10 = .error .errCredit ∧
      MbrManager.depositCredits 1 2 7 7 100 [] 0 10 ≠ .ok [(2, 90)] := by
  have h1 : MbrManager.depositCredits 1 2 7 7 100 [] 0 10 = .error .errCredit := rfl
  refine ⟨h1, ?_⟩
  rw [h1]
  simp

/-- C7 (amended claim theorem). `depositCredits` fails with `ERR:RCV`
(ReceiverMismatch) when the inbound payment's destination is not the
contract, fails with `ERR:AMT` (ZeroAmount) when the amount is 0, and
otherwise adds the amount to the named creditor's balance (creating the
box if absent) and settles the MBR delta against the transaction
*sender's* balance; in the usual self-deposit (`sender = creditor`) that
creates the box, the box's own MBR growth is debited from the freshly
deposited balance (self-funding). -/
theorem depositCredits_spec (sender creditor rcv contract amount : Nat)
    (credits : List (Nat × Nat)) (mbrBefore mbrAfter : Nat) :
    (rcv ≠ contract →
      MbrManager.depositCredits sender creditor rcv contract amount credits
        mbrBefore mbrAfter = .error .errReceiver) ∧
    (rcv = contract → amount = 0 →
      MbrManager.depositCredits sender creditor rcv contract amount credits
        mbrBefore mbrAfter = .error .errAmt) ∧
    (rcv = contract → amount ≠ 0 →
      MbrManager.depositCredits sender creditor rcv contract amount credits
          mbrBefore mbrAfter =
        MbrManager.manageMbrCredits sender
          (setBox credits creditor ((lookupBox credits creditor).getD 0 + amount))
          mbrBefore mbrAfter) ∧
    (rcv = contract → amount ≠ 0 → sender = creditor →
      lookupBox credits creditor = none → mbrBefore < mbrAfter →
      mbrAfter - mbrBefore ≤ amount →
      MbrManager.depositCredits sender creditor rcv contract amount credits
          mbrBefore mbrAfter =
        .ok (setBox (setBox credits creditor amount) creditor
          (amount - (mbrAfter - mbrBefore)))) := by
  refine ⟨fun h => ?_, fun h1 h2 => ?_, fun h1 h2 => ?_, fun h1 h2 h3 h4 h5 h6 => ?_⟩
  · simp [MbrManager.depositCredits, h]
  · simp [MbrManager.depositCredits, h1, h2]
  · simp [MbrManager.depositCredits, h1, h2]
  · subst h3
    simp only [MbrManager.depositCredits, h1, ne_eq, not_true_eq_false, if_false,
      if_neg h2, h4, Option.getD_none, Nat.zero_add]
    simp only [MbrManager.manageMbrCredits]
    rw [if_neg (by omega), if_pos h5, lookupBox_setBox_self]
    simp only [Option.getD_some]
    rw [if_pos h6]

/-- Witness for C7: a self-deposit of 100 creating the box with MBR
growth 10 leaves the depositor a balance of 90. -/
theorem depositCredits_spec_witness :
    MbrManager.depositCredits 3 3 7 7 100 [] 0 10 =
      .ok (setBox (setBox [] 3 100) 3 (100 - (10 - 0))) :=
  (depositCredits_spec 3 3 7 7 100 [] 0 10).2.2.2 rfl (by decide) rfl (by decide)
    (by decide) (by decide)

/-! ## Budget negotiation -/

/-- C8 (claim theorem). The negotiation is one-shot measure-then-fix:
when the consumed budget fits the per-call allowance (700) times the
call-equivalent count (nested calls counted one level deep), no rebuilt
group is returned; otherwise exactly one `increaseBudget(n)` call is
returned, carrying fee `n * 1000` (and max fee `(n+1) * 1000`) to fund
the sub-calls' own transaction fees, where `n` is the least number of
purchased sub-calls whose net contribution (allowance 700 minus the
increment cost, on top of the prepended call's own allowance minus its
base cost) covers the shortfall — i.e. the shortfall divided by the net
per-sub-call contribution, rounded up. -/
theorem budget_negotiation (txnResults : List Sdk.TxnResult) (consumed : Nat) :
    (consumed ≤ 700 * Sdk.numAppCalls txnResults →
      Sdk.getIncreaseBudgetBuilder txnResults consumed = none) ∧
    (700 * Sdk.numAppCalls txnResults < consumed →
      ∃ c : Sdk.IncreaseBudgetCall,
        Sdk.getIncreaseBudgetBuilder txnResults consumed = some c ∧
          c.extraFee = c.itxns * 1000 ∧ c.maxFee = (c.itxns + 1) * 1000 ∧
          IsLeast {n : Nat | consumed ≤
            700 * Sdk.numAppCalls txnResults + (700 - Sdk.increaseBudgetBaseCost) +
              n * (700 - Sdk.increaseBudgetIncrementCost)} c.itxns) := by
  constructor
  · intro h
    simp only [Sdk.getIncreaseBudgetBuilder]
    rw [if_pos h]
  · intro h
    simp only [Sdk.getIncreaseBudgetBuilder, Sdk.increaseBudgetBaseCost,
      Sdk.increaseBudgetIncrementCost]
    rw [if_neg (by omega)]
    refine ⟨_, rfl, rfl, rfl, ?_⟩
    dsimp only
    by_cases hA : consumed ≤ 700 * Sdk.numAppCalls txnResults + (700 - 26)
    · rw [if_pos hA]
      constructor
      · simp only [Set.mem_setOf_eq]
        omega
      · exact fun n _ => Nat.zero_le n
    · rw [if_neg hA]
      have hd := Nat.div_add_mod
        (consumed - (700 * Sdk.numAppCalls txnResults + (700 - 26)) + (700 - 22) - 1)
        (700 - 22)
      have hm := Nat.mod_lt
        (consumed - (700 * Sdk.numAppCalls txnResults + (700 - 26)) + (700 - 22) - 1)
        (show 0 < 700 - 22 by omega)
      constructor
      · simp only [Set.mem_setOf_eq]
        omega
      · intro n hn
        simp only [Set.mem_setOf_eq] at hn
        omega

/-- Witness for C8: a group of one call consuming 100 proceeds
unmodified; a group of one call consuming 3000 gets one `increaseBudget`
call with 3 inner transactions (the least `n` with
`700 + 674 + 678 n ≥ 3000`), extra fee 3000 and max fee 4000. -/
theorem budget_negotiation_witness :
    Sdk.getIncreaseBudgetBuilder [⟨true, 0⟩] 100 = none ∧
      ∃ c : Sdk.IncreaseBudgetCall,
        Sdk.getIncreaseBudgetBuilder [⟨true, 0⟩] 3000 = some c ∧
          c.extraFee = c.itxns * 1000 ∧ c.maxFee = (c.itxns + 1) * 1000 ∧
          IsLeast {n : Nat | 3000 ≤
            700 * Sdk.numAppCalls [⟨true, 0⟩] + (700 - Sdk.increaseBudgetBaseCost) +
              n * (700 - Sdk.increaseBudgetIncrementCost)} c.itxns :=
  ⟨(budget_negotiation [⟨true, 0⟩] 100).1 (by decide),
    (budget_negotiation [⟨true, 0⟩] 3000).2 (by decide)⟩

/-! ## Batch retry termination -/

theorem chunk_flatten_aux {α : Type} (size : Nat) (hs : size ≠ 0) :
    ∀ (N : Nat) (l : List α), l.length ≤ N → (Sdk.chunk l size).flatten = l := by
  intro N
  induction N with
  | zero =>
      intro l hl
      have h0 : l = [] := List.length_eq_zero.mp (Nat.le_zero.mp hl)
      subst h0
      rw [Sdk.chunk]
      simp
  | succ N ih =>
      intro l hl
      rw [Sdk.chunk]
      by_cases h0 : l = []
      · subst h0; simp
      · have hlen : l.length ≠ 0 := fun h => h0 (List.length_eq_zero.mp h)
        have hne' : l.isEmpty = false := by
          cases l with
          | nil => exact absurd rfl h0
          | cons a t => rfl
        simp only [hne', Bool.false_eq_true, if_false]
        rw [if_neg hs]
        rw [List.flatten_cons, ih (l.drop size) (by simp [List.length_drop]; omega)]
        exact List.take_append_drop _ l

theorem chunk_flatten {α : Type} (size : Nat) (hs : size ≠ 0) (l : List α) :
    (Sdk.chunk l size).flatten = l :=
  chunk_flatten_aux size hs l.length l (Nat.le_refl _)

/-- C9 (claim theorem). The orchestrator's register retry: (abort) any
pass whose failure count is nonzero and equal to the previous pass's
failure count raises the persistent-failure abort immediately; and
(termination) when every group fails persistently, a run started on a
nonempty id list executes exactly two passes — pass 1 over all ids, pass
2 retrying exactly the failed ids (= all of them) — and aborts, so it
never loops indefinitely. -/
theorem batch_retry_termination (groupFails : Nat → List Nat → Bool)
    (appIds : List Nat) :
    (∀ p q ids, (Sdk.failedIds groupFails p ids).length ≠ 0 →
      (Sdk.failedIds groupFails p ids).length = q →
      Sdk.registerRun groupFails p q ids = ([(p, ids)], true)) ∧
    (appIds ≠ [] → (∀ p g, groupFails p g = true) →
      Sdk.registerRun groupFails 1 0 appIds = ([(1, appIds), (2, appIds)], true)) := by
  have habort : ∀ p q ids, (Sdk.failedIds groupFails p ids).length ≠ 0 →
      (Sdk.failedIds groupFails p ids).length = q →
      Sdk.registerRun groupFails p q ids = ([(p, ids)], true) := by
    intro p q ids hne hq
    by_cases hids : ids = []
    · exfalso
      apply hne
      subst hids
      unfold Sdk.failedIds
      rw [Sdk.chunk]
      simp
    · rw [Sdk.registerRun]
      rw [if_neg hids, if_pos ⟨hne, hq⟩]
  refine ⟨habort, fun hne hall => ?_⟩
  have hfa : ∀ p, Sdk.failedIds groupFails p appIds = appIds := by
    intro p
    unfold Sdk.failedIds
    rw [List.filter_eq_self.mpr (fun a _ => hall p a)]
    exact chunk_flatten (7 * 15) (by omega) appIds
  have hlen0 : appIds.length ≠ 0 := fun h => hne (List.length_eq_zero.mp h)
  rw [Sdk.registerRun, if_neg hne]
  rw [hfa 1]
  rw [if_neg (fun h => h.1 h.2), if_pos hlen0]
  rw [habort (1 + 1) appIds.length appIds
    (by rw [hfa (1 + 1)]; exact hlen0) (by rw [hfa (1 + 1)])]

/-- Witness for C9: with an oracle that fails every group, registering
`[5]` runs pass 1 on `[5]`, retries `[5]` on pass 2, and aborts. -/
theorem batch_retry_termination_witness :
    Sdk.registerRun (fun _ _ => true) 1 0 [5] = ([(1, [5]), (2, [5])], true) :=
  (batch_retry_termination (fun _ _ => true) [5]).2 (by decide) (fun _ _ => rfl)
